import Mathlib

/-!
Verification development for the Theia IDE shell sources, covering
`packages/preview/src/browser/markdown/markdown-preview-handler.ts`,
`packages/preview/src/browser/preview-widget.ts` and
`packages/core/src/browser/shell/side-panel-handler.ts`.

The TypeScript functions are shallowly embedded: DOM element sequences become
lists, JavaScript numbers become rationals (`ℚ`) and integers (`ℤ`), with the
special values `NaN`, `Infinity` and `-Infinity` modelled explicitly where the
code can produce them, and the runtime `TypeError` raised by a member access on
`undefined` modelled as a distinguished outcome.
-/

namespace Preview

/-- Element of class `line` in the rendered markdown, as seen by
`MarkdownPreviewHandler`: its `offsetTop` and its parsed `data-line`
attribute (`none` models an absent or empty attribute, for which
`getLineNumberFromAttribute` returns `undefined`). -/
structure LineElement where
  offsetTop : ℚ
  dataLine : Option ℤ
deriving DecidableEq, Repr

/-- JavaScript number that is either a finite rational or one of the special
values `Infinity`, `-Infinity`, `NaN`. -/
inductive ExtQ where
  | fin (q : ℚ)
  | posInf
  | negInf
  | nan
deriving DecidableEq, Repr

/-- JavaScript number that is either a (mathematical) integer or one of the
special values `Infinity`, `-Infinity`, `NaN`. -/
inductive ExtInt where
  | fin (n : ℤ)
  | posInf
  | negInf
  | nan
deriving DecidableEq, Repr

/-- JavaScript division `a / b` on finite operands: finite when `b ≠ 0`,
otherwise `±Infinity` or `NaN` according to the sign of `a`. -/
def jsDiv (a b : ℚ) : ExtQ :=
  if b = 0 then
    if a = 0 then ExtQ.nan else if 0 < a then ExtQ.posInf else ExtQ.negInf
  else ExtQ.fin (a / b)

/-- JavaScript multiplication of a finite integer with an extended number. -/
def jsMulInt (m : ℤ) (x : ExtQ) : ExtQ :=
  match x with
  | ExtQ.fin q => ExtQ.fin (m * q)
  | ExtQ.posInf => if m = 0 then ExtQ.nan else if 0 < m then ExtQ.posInf else ExtQ.negInf
  | ExtQ.negInf => if m = 0 then ExtQ.nan else if 0 < m then ExtQ.negInf else ExtQ.posInf
  | ExtQ.nan => ExtQ.nan

/-- JavaScript `Math.floor` on an extended number: `Math.floor` is the
identity on `Infinity`, `-Infinity` and `NaN`. -/
def jsFloor (x : ExtQ) : ExtInt :=
  match x with
  | ExtQ.fin q => ExtInt.fin (Rat.floor q)
  | ExtQ.posInf => ExtInt.posInf
  | ExtQ.negInf => ExtInt.negInf
  | ExtQ.nan => ExtInt.nan

/-- JavaScript addition of a finite integer with an extended integer. -/
def jsAddInt (n : ℤ) (x : ExtInt) : ExtInt :=
  match x with
  | ExtInt.fin m => ExtInt.fin (n + m)
  | ExtInt.posInf => ExtInt.posInf
  | ExtInt.negInf => ExtInt.negInf
  | ExtInt.nan => ExtInt.nan

/-- Outcome of `MarkdownPreviewHandler.getSourceLineForOffset`: a normal
return of `number | undefined` (`ret`), or a thrown `TypeError` from a member
access on `undefined`. -/
inductive JsOutcome where
  | ret (v : Option ExtInt)
  | typeError
deriving DecidableEq, Repr

/-- Tree-walker acceptance loop of `getLineElementsAtOffset`: every `line`
element is accepted up to and including the first one whose `offsetTop`
exceeds the offset; from then on `skipNext` stays `true` and all further
`line` elements are skipped. The input list is the document-order sequence of
`line`-class elements below the content node. -/
def acceptedElems (offset : ℚ) : List LineElement → List LineElement
  | [] => []
  | e :: rest =>
    if offset < e.offsetTop then [e] else e :: acceptedElems offset rest

/-- JavaScript `array.slice(-2)`: the last two elements. -/
def lastTwo {α : Type} (l : List α) : List α :=
  l.drop (l.length - 2)

/-- Embedding of `MarkdownPreviewHandler.getLineElementsAtOffset`: the
accepted elements of the tree walk, then `slice(-2)`. -/
def getLineElementsAtOffset (elems : List LineElement) (offset : ℚ) : List LineElement :=
  lastTwo (acceptedElems offset elems)

/-- Embedding of `MarkdownPreviewHandler.getSourceLineForOffset`. The match
branches mirror the statement sequence of the source: an empty result returns
`undefined`; with exactly one element the source evaluates
`this.getLineNumberFromAttribute(lineElements[1])` before its
`lineElements.length === 1` check, and `lineElements[1]` is `undefined`, so
the attribute access throws a `TypeError`; with two elements the guards on
the two line numbers are followed by the interpolation
`firstLineNumber + Math.floor((secondLineNumber - firstLineNumber) *
(offset - y1) / (y2 - y1))`. -/
def getSourceLineForOffset (elems : List LineElement) (offset : ℚ) : JsOutcome :=
  match getLineElementsAtOffset elems offset with
  | [] => JsOutcome.ret none
  | [_] => JsOutcome.typeError
  | e1 :: e2 :: _ =>
    match e1.dataLine with
    | none => JsOutcome.ret none
    | some l1 =>
      match e2.dataLine with
      | none => JsOutcome.ret (some (ExtInt.fin l1))
      | some l2 =>
        let y1 := e1.offsetTop
        let y2 := e2.offsetTop
        let dY := jsDiv (offset - y1) (y2 - y1)
        let dL := jsMulInt (l2 - l1) dY
        JsOutcome.ret (some (jsAddInt l1 (jsFloor dL)))

/-- Loop body of `MarkdownPreviewHandler.findElementForSourceLine` over the
`line`-class elements (represented by their parsed `data-line` attributes,
`none` for an absent attribute, which the source reads as
`parseInt(element.getAttribute('data-line') || '0')`, i.e. `0`). The loop
breaks at the first element whose line exceeds `sourceLine` and otherwise
remembers the element's index in `matched`. -/
def findLoop (sourceLine : ℤ) : List (Option ℤ) → ℕ → Option ℕ → Option ℕ
  | [], _, matched => matched
  | e :: rest, i, matched =>
    if sourceLine < e.getD 0 then matched
    else findLoop sourceLine rest (i + 1) (some i)

/-- Embedding of `MarkdownPreviewHandler.findElementForSourceLine`, returning
the index (in document order) of the matched element among the `line`-class
elements, or `none` when no element matched. -/
def findElementForSourceLine (attrs : List (Option ℤ)) (sourceLine : ℤ) : Option ℕ :=
  findLoop sourceLine attrs 0 none

/-- Truthiness of the `number | undefined` result of
`getSourceLineForOffset`, as tested by `if (line)` in
`PreviewWidget.didScroll` and `PreviewWidget.didDoubleClick`: `undefined`,
`0` and `NaN` are falsy. -/
def lineTruthy : Option ExtInt → Bool
  | none => false
  | some (ExtInt.fin n) => n ≠ 0
  | some ExtInt.posInf => true
  | some ExtInt.negInf => true
  | some ExtInt.nan => false

/-- Number of leading elements whose effective line (attribute or `0`) does
not exceed `sourceLine`; proof-side measure for the `findElementForSourceLine`
loop. -/
def leadCount (sourceLine : ℤ) : List (Option ℤ) → ℕ
  | [] => 0
  | a :: rest => if sourceLine < a.getD 0 then 0 else leadCount sourceLine rest + 1

/-- Outcome of `PreviewWidget.didScroll` / `didDoubleClick`: the event fired
with a line, or no event, or a propagated exception. -/
inductive FireOutcome where
  | fired (line : ExtInt)
  | noFire
  | threw
deriving DecidableEq, Repr

/-- Embedding of `PreviewWidget.didScroll`: computes the source line for the
scroll offset and fires `onDidScroll` only when the result is truthy. -/
def didScroll (elems : List LineElement) (scrollTop : ℚ) : FireOutcome :=
  match getSourceLineForOffset elems scrollTop with
  | JsOutcome.typeError => FireOutcome.threw
  | JsOutcome.ret line =>
    if lineTruthy line then
      match line with
      | some l => FireOutcome.fired l
      | none => FireOutcome.noFire
    else FireOutcome.noFire

/-- Embedding of `PreviewWidget.didDoubleClick`: computes the source line for
the click offset and fires `onDidDoubleClick` only when the result is
truthy. -/
def didDoubleClick (elems : List LineElement) (offsetTop : ℚ) : FireOutcome :=
  match getSourceLineForOffset elems offsetTop with
  | JsOutcome.typeError => FireOutcome.threw
  | JsOutcome.ret line =>
    if lineTruthy line then
      match line with
      | some l => FireOutcome.fired l
      | none => FireOutcome.noFire
    else FireOutcome.noFire

end Preview

namespace SidePanel

/-- State of a `SidePanelHandler` together with its `SideTabBar`,
`SideDockPanel` and container, from
`packages/core/src/browser/shell/side-panel-handler.ts` (the revision that
holds `lastActiveTabIndex` and `container`). Widgets are identified by
natural numbers; a widget's title is identified with its owner. `ranks` is
the `rankProperty` attached-property map; `dock` is the list of widgets of
the dock panel in insertion order; `titles`, `currentIndex` and `prevTitle`
are the tab bar's title list, `_currentIndex` and `_previousTitle`; the three
`Hidden` flags are the hidden state of the tab bar, the dock panel and the
containing panel. -/
structure SPState where
  ranks : ℕ → Option ℤ
  dock : List ℕ
  titles : List ℕ
  currentIndex : ℤ
  prevTitle : Option ℕ
  lastActiveTabIndex : ℤ
  tabBarHidden : Bool
  dockPanelHidden : Bool
  containerHidden : Bool

/-- Current title of the tab bar: `this._titles[this._currentIndex] || null`
as in `@phosphor/widgets` `TabBar.currentTitle`. -/
def currentTitle (s : SPState) : Option ℕ :=
  if s.currentIndex < 0 then none else s.titles.get? s.currentIndex.toNat

/-- Embedding of `SidePanelHandler.refreshVisibility`: the tab bar is hidden
when it has no titles, the dock panel when the tab bar has no current title,
the containing panel when both hold. The `COLLAPSED_CLASS` toggling and
`dockPanel.selectWidget` have no effect on the modelled state. -/
def refreshVisibility (s : SPState) : SPState :=
  let hideSideBar := s.titles.isEmpty
  let hideDockPanel := (currentTitle s).isNone
  { s with containerHidden := hideSideBar && hideDockPanel,
           tabBarHidden := hideSideBar,
           dockPanelHidden := hideDockPanel }

/-- JavaScript `Array.prototype.indexOf`: index of the first occurrence, or
`-1` when absent. -/
def jsIndexOf (l : List ℕ) (w : ℕ) : ℤ :=
  match l with
  | [] => -1
  | x :: rest =>
    if x = w then 0
    else
      let r := jsIndexOf rest w
      if r < 0 then -1 else r + 1

/-- Embedding of `SidePanelHandler.onCurrentTabChanged`, the handler
connected to the tab bar's `currentChanged` signal: it records the new
current index in `lastActiveTabIndex` when nonnegative and refreshes the
visibility. -/
def onCurrentTabChanged (s : SPState) (currentIndex : ℤ) : SPState :=
  refreshVisibility
    (if 0 ≤ currentIndex then { s with lastActiveTabIndex := currentIndex } else s)

/-- Setter `TabBar.currentIndex` of `@phosphor/widgets`, modelled from the
library the handler is built on: an out-of-range value is coerced to `-1`; an
unchanged index is a no-op; otherwise the index and the previous title are
stored and the `currentChanged` signal fires, which the side panel handler
receives in `onCurrentTabChanged`. -/
def setCurrentIndex (s : SPState) (value : ℤ) : SPState :=
  let v := if value < 0 ∨ (s.titles.length : ℤ) ≤ value then -1 else value
  if s.currentIndex = v then s
  else
    let pt := currentTitle s
    onCurrentTabChanged { s with currentIndex := v, prevTitle := pt } v

/-- Setter `TabBar.currentTitle` of `@phosphor/widgets`:
`this.currentIndex = value ? this._titles.indexOf(value) : -1`. -/
def setCurrentTitle (s : SPState) (t : Option ℕ) : SPState :=
  match t with
  | none => setCurrentIndex s (-1)
  | some w => setCurrentIndex s (jsIndexOf s.titles w)

/-- List with `a` inserted at position `i` (clamped to the length). -/
def insertAt {α : Type} (l : List α) (i : ℕ) (a : α) : List α :=
  l.take i ++ a :: l.drop i

/-- Method `TabBar.insertTab` of `@phosphor/widgets` for a title that is not
yet in the tab bar, with the side bar's `insertBehavior: 'none'`: the title
is inserted at the clamped index and `_currentIndex` is shifted when the
insertion is at or before it, keeping the same current title; no signal
fires. A title already in the bar would be moved instead, but
`SidePanelHandler` only reaches `insertTab` through `SideDockPanel.addWidget`
which returns early for widgets already in the panel. -/
def insertTab (s : SPState) (index : ℕ) (w : ℕ) : SPState :=
  let i := min index s.titles.length
  { s with titles := insertAt s.titles i w,
           currentIndex :=
             if (i : ℤ) ≤ s.currentIndex then s.currentIndex + 1 else s.currentIndex }

/-- Loop condition of `SidePanelHandler.onWidgetAdded` at tab index `i`: the
tab's owner has a defined rank strictly greater than the new widget's
rank. -/
def rankGtAt (titles : List ℕ) (ranks : ℕ → Option ℤ) (rank : ℤ) (i : ℕ) : Bool :=
  match titles.get? i with
  | some w =>
    match ranks w with
    | some r => decide (rank < r)
    | none => false
  | none => false

/-- Downward loop `for (let i = n - 1; i >= 0; i--) if (cond(i)) index = i`,
started with `downLoop cond n index0`. -/
def downLoop (cond : ℕ → Bool) : ℕ → ℕ → ℕ
  | 0, index => index
  | i + 1, index => downLoop cond i (if cond i then i else index)

/-- Embedding of `SidePanelHandler.onWidgetAdded`, the handler of the dock
panel's `widgetAdded` signal: the insertion index starts at the number of
tabs and, when the widget has a rank, the downward loop lowers it to the
smallest tab index whose rank is defined and greater; the title is inserted
there and the visibility refreshed. -/
def onWidgetAdded (s : SPState) (w : ℕ) : SPState :=
  let index :=
    match s.ranks w with
    | none => s.titles.length
    | some rk => downLoop (rankGtAt s.titles s.ranks rk) s.titles.length s.titles.length
  refreshVisibility (insertTab s index w)

/-- Embedding of `SideDockPanel.addWidget`: a widget whose parent is already
this panel is ignored (`single-document` mode); otherwise it is added and the
`widgetAdded` signal is emitted, which `SidePanelHandler.onWidgetAdded`
receives. The returned flag records whether the signal was emitted. -/
def dockAddWidget (s : SPState) (w : ℕ) : SPState × Bool :=
  if w ∈ s.dock then (s, false)
  else (onWidgetAdded { s with dock := s.dock ++ [w] } w, true)

/-- Truthiness of `options.rank`: `undefined` and `0` are falsy. -/
def rankTruthy : Option ℤ → Bool
  | none => false
  | some r => decide (r ≠ 0)

/-- Embedding of `SidePanelHandler.addWidget`: `rankProperty` is set only
when `options.rank` is truthy, then the widget is added to the dock panel.
The returned flag records whether the dock panel emitted `widgetAdded`. -/
def addWidget (s : SPState) (w : ℕ) (rank : Option ℤ) : SPState × Bool :=
  let s1 :=
    if rankTruthy rank then { s with ranks := fun x => if x = w then rank else s.ranks x }
    else s
  dockAddWidget s1 w

/-- Embedding of `SidePanelHandler.expand`: with an ID, the widget is looked
up in the dock panel and, when found, its title is made current; without an
ID, when the tab bar is non-empty and collapsed, the stored
`lastActiveTabIndex` is clamped into range and the tab there is made current.
The second component is the returned widget. -/
def expand (s : SPState) (id : Option ℕ) : SPState × Option ℕ :=
  match id with
  | some i =>
    match s.dock.find? (fun w => w == i) with
    | some w => (setCurrentTitle s (some w), some w)
    | none => (s, none)
  | none =>
    if 0 < s.titles.length ∧ (currentTitle s).isNone then
      let index :=
        if s.lastActiveTabIndex < 0 then 0
        else if (s.titles.length : ℤ) ≤ s.lastActiveTabIndex then (s.titles.length : ℤ) - 1
        else s.lastActiveTabIndex
      match s.titles.get? index.toNat with
      | some t => (setCurrentTitle s (some t), some t)
      | none => (s, none)
    else (s, none)

/-- Embedding of `SidePanelHandler.collapse`: the current title is set to
`null`; the visibility refresh happens through the `currentChanged`
signal. -/
def collapse (s : SPState) : SPState :=
  setCurrentTitle s none

/-- List with the element at position `i` removed. -/
def removeAt {α : Type} (l : List α) (i : ℕ) : List α :=
  l.take i ++ l.drop (i + 1)

/-- Method `TabBar.removeTab` of `@phosphor/widgets` with the side bar's
`removeBehavior: 'select-previous-tab'`, modelled from the library: a title
not in the bar is ignored; removing the current title selects the stored
previous title (or the nearest remaining index) and fires `currentChanged`,
which the handler receives in `onCurrentTabChanged`; removing a title before
the current one shifts `_currentIndex` silently. -/
def removeTab (s : SPState) (w : ℕ) : SPState :=
  let i := jsIndexOf s.titles w
  if i < 0 then s
  else
    let idx := i.toNat
    let titles1 := removeAt s.titles idx
    let s1 := { s with titles := titles1 }
    let s2 := if s1.prevTitle = some w then { s1 with prevTitle := none } else s1
    if s.currentIndex = i then
      let s3 :=
        match s2.prevTitle with
        | some pt => { s2 with currentIndex := jsIndexOf titles1 pt, prevTitle := none }
        | none => { s2 with currentIndex := min i ((titles1.length : ℤ) - 1) }
      onCurrentTabChanged s3 s3.currentIndex
    else if i < s.currentIndex then { s2 with currentIndex := s.currentIndex - 1 }
    else s2

/-- Embedding of `SidePanelHandler.onWidgetRemoved`, the handler of the dock
panel's `widgetRemoved` signal: the widget's tab is removed and the
visibility refreshed. -/
def onWidgetRemoved (s : SPState) (w : ℕ) : SPState :=
  refreshVisibility (removeTab s w)

/-- Removal of a widget from the dock panel (`onChildRemoved` of
`SideDockPanel` emits `widgetRemoved`, received by
`SidePanelHandler.onWidgetRemoved`). -/
def removeWidget (s : SPState) (w : ℕ) : SPState :=
  if w ∈ s.dock then onWidgetRemoved { s with dock := s.dock.erase w } w else s

/-- Freshly constructed side bar, dock panel and container: no widgets, no
current title, `lastActiveTabIndex = -1`, all parts visible. -/
def initState : SPState :=
  { ranks := fun _ => none, dock := [], titles := [], currentIndex := -1,
    prevTitle := none, lastActiveTabIndex := -1, tabBarHidden := false,
    dockPanelHidden := false, containerHidden := false }

/-- Embedding of `SidePanelHandler.create`: the parts are created and the
visibility refreshed. -/
def createState : SPState :=
  refreshVisibility initState

/-- Item of `SidePanel.LayoutData`: a widget with its optional rank and its
expanded flag. -/
structure WidgetItem where
  widget : ℕ
  rank : Option ℤ
  expanded : Bool

/-- Embedding of `SidePanelHandler.setLayoutData`: the current title is
cleared, every item's widget is added (and made current when marked
expanded), and the visibility is refreshed. -/
def setLayoutData (s : SPState) (items : List WidgetItem) : SPState :=
  let s1 := setCurrentTitle s none
  let s2 := items.foldl
    (fun acc it =>
      let acc1 := (addWidget acc it.widget it.rank).1
      if it.expanded then setCurrentTitle acc1 (some it.widget) else acc1) s1
  refreshVisibility s2

/-- Sequence of `SidePanelHandler.addWidget` calls, each with a rank. -/
def addAll (s : SPState) (ws : List (ℕ × ℤ)) : SPState :=
  ws.foldl (fun acc p => (addWidget acc p.1 (some p.2)).1) s

/-- Proof-side invariant: every widget of the tab bar is in the dock panel
and conversely (the handler keeps the two in sync). -/
def SyncedInv (s : SPState) : Prop :=
  (∀ x ∈ s.titles, x ∈ s.dock) ∧ (∀ x ∈ s.dock, x ∈ s.titles)

/-- All tabs carry defined ranks and the tab order is nondecreasing by
rank. -/
def RanksSortedDefined (s : SPState) : Prop :=
  (∀ x ∈ s.titles, ∃ r, s.ranks x = some r) ∧
  List.Pairwise (fun a b => ∀ ra rb, s.ranks a = some ra → s.ranks b = some rb → ra ≤ rb)
    s.titles

/-- Visibility invariant claimed for the side panel: the dock panel is hidden
exactly when no title is current, the tab bar exactly when it has no titles,
the containing panel exactly when both hold. -/
def FlagsInvariant (s : SPState) : Prop :=
  s.dockPanelHidden = (currentTitle s).isNone ∧
  s.tabBarHidden = s.titles.isEmpty ∧
  s.containerHidden = (s.titles.isEmpty && (currentTitle s).isNone)

theorem currentTitle_refreshVisibility (s : SPState) :
    currentTitle (refreshVisibility s) = currentTitle s := rfl

theorem titles_refreshVisibility (s : SPState) :
    (refreshVisibility s).titles = s.titles := rfl

theorem flagsInvariant_refreshVisibility (s : SPState) :
    FlagsInvariant (refreshVisibility s) := by
  refine ⟨rfl, rfl, rfl⟩

theorem flagsInvariant_onCurrentTabChanged (s : SPState) (ci : ℤ) :
    FlagsInvariant (onCurrentTabChanged s ci) :=
  flagsInvariant_refreshVisibility _

theorem flagsInvariant_setCurrentIndex (s : SPState) (v : ℤ)
    (h : FlagsInvariant s) : FlagsInvariant (setCurrentIndex s v) := by
  unfold setCurrentIndex
  dsimp only
  split <;> split <;>
    first
      | exact h
      | exact flagsInvariant_onCurrentTabChanged _ _

theorem flagsInvariant_setCurrentTitle (s : SPState) (t : Option ℕ)
    (h : FlagsInvariant s) : FlagsInvariant (setCurrentTitle s t) := by
  unfold setCurrentTitle
  cases t with
  | none => exact flagsInvariant_setCurrentIndex _ _ h
  | some w => exact flagsInvariant_setCurrentIndex _ _ h

theorem flagsInvariant_ranks_update (s : SPState) (f : ℕ → Option ℤ)
    (h : FlagsInvariant s) : FlagsInvariant { s with ranks := f } := h

theorem flagsInvariant_onWidgetAdded (s : SPState) (w : ℕ) :
    FlagsInvariant (onWidgetAdded s w) :=
  flagsInvariant_refreshVisibility _

theorem flagsInvariant_dockAddWidget (s : SPState) (w : ℕ)
    (h : FlagsInvariant s) : FlagsInvariant (dockAddWidget s w).1 := by
  unfold dockAddWidget
  split
  · exact h
  · exact flagsInvariant_onWidgetAdded _ _

theorem flagsInvariant_addWidget (s : SPState) (w : ℕ) (rank : Option ℤ)
    (h : FlagsInvariant s) : FlagsInvariant (addWidget s w rank).1 := by
  unfold addWidget
  split
  · exact flagsInvariant_dockAddWidget _ _ h
  · exact flagsInvariant_dockAddWidget _ _ h

theorem flagsInvariant_expand (s : SPState) (id : Option ℕ)
    (h : FlagsInvariant s) : FlagsInvariant (expand s id).1 := by
  cases id with
  | some i =>
    unfold expand
    dsimp only
    split
    · exact flagsInvariant_setCurrentTitle _ _ h
    · exact h
  | none =>
    unfold expand
    dsimp only
    split
    · split
      · exact flagsInvariant_setCurrentTitle _ _ h
      · exact h
    · exact h

theorem flagsInvariant_collapse (s : SPState) (h : FlagsInvariant s) :
    FlagsInvariant (collapse s) :=
  flagsInvariant_setCurrentTitle _ _ h

theorem flagsInvariant_removeWidget (s : SPState) (w : ℕ)
    (h : FlagsInvariant s) : FlagsInvariant (removeWidget s w) := by
  unfold removeWidget
  split
  · exact flagsInvariant_refreshVisibility _
  · exact h

theorem flagsInvariant_setLayoutData (s : SPState) (items : List WidgetItem) :
    FlagsInvariant (setLayoutData s items) :=
  flagsInvariant_refreshVisibility _

theorem jsIndexOf_mem {l : List ℕ} {w : ℕ} (h : w ∈ l) :
    0 ≤ jsIndexOf l w ∧ jsIndexOf l w < (l.length : ℤ) ∧
      l.get? (jsIndexOf l w).toNat = some w := by
  induction l with
  | nil => cases h
  | cons x rest ih =>
    by_cases hx : x = w
    · have hj : jsIndexOf (x :: rest) w = 0 := by
        simp only [jsIndexOf, if_pos hx]
      rw [hj]
      refine ⟨le_refl 0, ?_, ?_⟩
      · simp only [List.length_cons]
        push_cast
        omega
      · simp [hx]
    · have hw : w ∈ rest := by
        cases h with
        | head => exact absurd rfl hx
        | tail _ h2 => exact h2
      obtain ⟨h0, hlen, hget⟩ := ih hw
      have hr : jsIndexOf (x :: rest) w = jsIndexOf rest w + 1 := by
        simp only [jsIndexOf, if_neg hx]
        rw [if_neg (by omega)]
      rw [hr]
      refine ⟨by omega, ?_, ?_⟩
      · simp only [List.length_cons]
        push_cast
        omega
      · have ht : (jsIndexOf rest w + 1).toNat = (jsIndexOf rest w).toNat + 1 := by omega
        rw [ht]
        simpa using hget

theorem currentTitle_setCurrentTitle_mem {s : SPState} {w : ℕ}
    (h : w ∈ s.titles) : currentTitle (setCurrentTitle s (some w)) = some w := by
  obtain ⟨h0, hlen, hget⟩ := jsIndexOf_mem h
  unfold setCurrentTitle setCurrentIndex
  dsimp only
  rw [if_neg (by omega : ¬(jsIndexOf s.titles w < 0 ∨
    (s.titles.length : ℤ) ≤ jsIndexOf s.titles w))]
  split
  · rename_i heq
    unfold currentTitle
    rw [if_neg (by omega), heq]
    exact hget
  · rw [onCurrentTabChanged, currentTitle_refreshVisibility]
    split
    · unfold currentTitle
      dsimp only
      rw [if_neg (by omega)]
      exact hget
    · unfold currentTitle
      dsimp only
      rw [if_neg (by omega)]
      exact hget

theorem dockAddWidget_mem (s : SPState) (w : ℕ) (h : w ∈ s.dock) :
    dockAddWidget s w = (s, false) := by
  unfold dockAddWidget
  rw [if_pos h]

theorem get?_exists_of_lt {α : Type} :
    ∀ (l : List α) (n : ℕ), n < l.length → ∃ a, l.get? n = some a ∧ a ∈ l := by
  intro l
  induction l with
  | nil => intro n hn; simp at hn
  | cons x rest ih =>
    intro n hn
    cases n with
    | zero => exact ⟨x, rfl, List.mem_cons_self x rest⟩
    | succ m =>
      obtain ⟨a, ha, hm⟩ := ih m (by simpa using hn)
      exact ⟨a, by simpa using ha, List.mem_cons_of_mem x hm⟩

end SidePanel

/-- C4: after every `SidePanelHandler` operation that ends in
`refreshVisibility` (create, `setLayoutData`, `expand`, `collapse` via the
current-tab-changed signal, widget added, widget removed), the dock panel is
hidden if and only if the tab bar has no current title, the tab bar is hidden
if and only if it contains no titles, and the containing panel is hidden if
and only if both conditions hold. -/
theorem sidePanel_visibility_invariant :
    SidePanel.FlagsInvariant SidePanel.createState ∧
    ∀ s, SidePanel.FlagsInvariant s →
      (∀ items, SidePanel.FlagsInvariant (SidePanel.setLayoutData s items)) ∧
      (∀ id, SidePanel.FlagsInvariant (SidePanel.expand s id).1) ∧
      SidePanel.FlagsInvariant (SidePanel.collapse s) ∧
      (∀ w rank, SidePanel.FlagsInvariant (SidePanel.addWidget s w rank).1) ∧
      (∀ w, SidePanel.FlagsInvariant (SidePanel.removeWidget s w)) := by
  refine ⟨SidePanel.flagsInvariant_refreshVisibility _, fun s h => ?_⟩
  exact ⟨fun items => SidePanel.flagsInvariant_setLayoutData s items,
    fun id => SidePanel.flagsInvariant_expand s id h,
    SidePanel.flagsInvariant_collapse s h,
    fun w rank => SidePanel.flagsInvariant_addWidget s w rank h,
    fun w => SidePanel.flagsInvariant_removeWidget s w h⟩

/-- Witness for C4: the invariant holds in the freshly created state and is
preserved by one concrete instance of each operation. -/
theorem sidePanel_visibility_invariant_witness :
    SidePanel.FlagsInvariant SidePanel.createState ∧
    SidePanel.FlagsInvariant (SidePanel.setLayoutData SidePanel.createState [⟨3, some 5, true⟩]) ∧
    SidePanel.FlagsInvariant (SidePanel.expand SidePanel.createState (some 3)).1 ∧
    SidePanel.FlagsInvariant (SidePanel.collapse SidePanel.createState) ∧
    SidePanel.FlagsInvariant (SidePanel.addWidget SidePanel.createState 4 (some 2)).1 ∧
    SidePanel.FlagsInvariant (SidePanel.removeWidget SidePanel.createState 4) :=
  have h1 := sidePanel_visibility_invariant.1
  have h2 := sidePanel_visibility_invariant.2 SidePanel.createState h1
  ⟨h1, h2.1 _, h2.2.1 _, h2.2.2.1, h2.2.2.2.1 _ _, h2.2.2.2.2 _⟩

/-- C10: adding a widget that is already contained in the side dock panel is
a no-op: `SideDockPanel.addWidget` returns without modifying the panel or the
tab bar and without emitting the `widgetAdded` signal, and the same holds for
the state reached through `SidePanelHandler.addWidget` (which at most updates
the rank property), so no duplicate tab is created. -/
theorem sideDockPanel_addWidget_idempotent (s : SidePanel.SPState) (w : ℕ)
    (rank : Option ℤ) (h : w ∈ s.dock) :
    SidePanel.dockAddWidget s w = (s, false) ∧
    (SidePanel.addWidget s w rank).1.dock = s.dock ∧
    (SidePanel.addWidget s w rank).1.titles = s.titles ∧
    (SidePanel.addWidget s w rank).1.currentIndex = s.currentIndex ∧
    (SidePanel.addWidget s w rank).1.prevTitle = s.prevTitle ∧
    (SidePanel.addWidget s w rank).1.lastActiveTabIndex = s.lastActiveTabIndex ∧
    (SidePanel.addWidget s w rank).1.tabBarHidden = s.tabBarHidden ∧
    (SidePanel.addWidget s w rank).1.dockPanelHidden = s.dockPanelHidden ∧
    (SidePanel.addWidget s w rank).1.containerHidden = s.containerHidden ∧
    (SidePanel.addWidget s w rank).2 = false := by
  refine ⟨SidePanel.dockAddWidget_mem s w h, ?_⟩
  unfold SidePanel.addWidget
  dsimp only
  by_cases hr : SidePanel.rankTruthy rank = true
  · have hm := SidePanel.dockAddWidget_mem
      { s with ranks := fun x => if x = w then rank else s.ranks x } w h
    rw [if_pos hr, hm]
    exact ⟨rfl, rfl, rfl, rfl, rfl, rfl, rfl, rfl, rfl⟩
  · rw [if_neg hr, SidePanel.dockAddWidget_mem s w h]
    exact ⟨rfl, rfl, rfl, rfl, rfl, rfl, rfl, rfl, rfl⟩

/-- Witness for C10: a second add of widget 5, which already resides in the
dock panel, changes nothing and emits no signal. -/
theorem sideDockPanel_addWidget_idempotent_witness :
    5 ∈ (SidePanel.addWidget SidePanel.createState 5 none).1.dock ∧
    SidePanel.dockAddWidget (SidePanel.addWidget SidePanel.createState 5 none).1 5 =
      ((SidePanel.addWidget SidePanel.createState 5 none).1, false) ∧
    (SidePanel.addWidget (SidePanel.addWidget SidePanel.createState 5 none).1 5 (some 7)).1.titles =
      (SidePanel.addWidget SidePanel.createState 5 none).1.titles ∧
    (SidePanel.addWidget (SidePanel.addWidget SidePanel.createState 5 none).1 5 (some 7)).2 = false :=
  ⟨by decide,
    (sideDockPanel_addWidget_idempotent _ 5 (some 7) (by decide)).1,
    (sideDockPanel_addWidget_idempotent _ 5 (some 7) (by decide)).2.2.1,
    (sideDockPanel_addWidget_idempotent _ 5 (some 7) (by decide)).2.2.2.2.2.2.2.2.2⟩

/-- C6: expanding by ID finds the widget with that ID in the dock panel,
makes its title the tab bar's current title and returns it; when no widget
with the ID exists, `expand` returns `undefined` and leaves the state (in
particular the current title) unchanged. The found case assumes the widget's
title is in the tab bar, which `onWidgetAdded` guarantees for every widget in
the dock panel. -/
theorem sidePanel_expand_by_id :
    (∀ (s : SidePanel.SPState) (w : ℕ), w ∈ s.dock → w ∈ s.titles →
      (SidePanel.expand s (some w)).2 = some w ∧
      SidePanel.currentTitle (SidePanel.expand s (some w)).1 = some w) ∧
    (∀ (s : SidePanel.SPState) (w : ℕ), w ∉ s.dock →
      (SidePanel.expand s (some w)).1 = s ∧
      (SidePanel.expand s (some w)).2 = none) := by
  constructor
  · intro s w hd ht
    have hfind : s.dock.find? (fun x => x == w) = some w := by
      cases hf : s.dock.find? (fun x => x == w) with
      | none =>
        rw [List.find?_eq_none] at hf
        have h1 := hf w hd
        simp at h1
      | some y =>
        have hyw := List.find?_some hf
        simp only [beq_iff_eq] at hyw
        rw [hyw]
    have hexp : SidePanel.expand s (some w) =
        (SidePanel.setCurrentTitle s (some w), some w) := by
      unfold SidePanel.expand
      dsimp only
      rw [hfind]
    rw [hexp]
    exact ⟨rfl, SidePanel.currentTitle_setCurrentTitle_mem ht⟩
  · intro s w hd
    have hfind : s.dock.find? (fun x => x == w) = none := by
      rw [List.find?_eq_none]
      intro x hx
      simp only [beq_iff_eq]
      intro hxw
      exact hd (hxw ▸ hx)
    have hexp : SidePanel.expand s (some w) = (s, none) := by
      unfold SidePanel.expand
      dsimp only
      rw [hfind]
    rw [hexp]
    exact ⟨rfl, rfl⟩

/-- Witness for C6: expanding widget 5 (present) selects and returns it;
expanding ID 9 (absent) returns `undefined` and changes nothing. -/
theorem sidePanel_expand_by_id_witness :
    5 ∈ (SidePanel.addWidget SidePanel.createState 5 none).1.dock ∧
    5 ∈ (SidePanel.addWidget SidePanel.createState 5 none).1.titles ∧
    (SidePanel.expand (SidePanel.addWidget SidePanel.createState 5 none).1 (some 5)).2 = some 5 ∧
    SidePanel.currentTitle
      (SidePanel.expand (SidePanel.addWidget SidePanel.createState 5 none).1 (some 5)).1 = some 5 ∧
    9 ∉ SidePanel.createState.dock ∧
    (SidePanel.expand SidePanel.createState (some 9)).1 = SidePanel.createState ∧
    (SidePanel.expand SidePanel.createState (some 9)).2 = none :=
  ⟨by decide, by decide,
    (sidePanel_expand_by_id.1 _ 5 (by decide) (by decide)).1,
    (sidePanel_expand_by_id.1 _ 5 (by decide) (by decide)).2,
    by decide,
    (sidePanel_expand_by_id.2 _ 9 (by decide)).1,
    (sidePanel_expand_by_id.2 _ 9 (by decide)).2⟩

/-- C5: calling `expand` without an ID while the tab bar is non-empty and no
title is current selects the tab at the stored `lastActiveTabIndex`, clamped
into bounds: index `0` when no tab was ever active (stored index negative),
the last tab when the stored index is at least the number of tabs, and the
stored index itself otherwise; the selected tab becomes current and its owner
widget is returned. -/
theorem sidePanel_expand_last_active (s : SidePanel.SPState)
    (h1 : 0 < s.titles.length) (h2 : SidePanel.currentTitle s = none) :
    ∃ i : ℤ,
      i = (if s.lastActiveTabIndex < 0 then 0
        else if (s.titles.length : ℤ) ≤ s.lastActiveTabIndex then (s.titles.length : ℤ) - 1
        else s.lastActiveTabIndex) ∧
      0 ≤ i ∧ i.toNat < s.titles.length ∧
      (s.lastActiveTabIndex < 0 → i = 0) ∧
      (0 ≤ s.lastActiveTabIndex → s.lastActiveTabIndex < (s.titles.length : ℤ) →
        i = s.lastActiveTabIndex) ∧
      ((s.titles.length : ℤ) ≤ s.lastActiveTabIndex → i = (s.titles.length : ℤ) - 1) ∧
      ∃ t, s.titles.get? i.toNat = some t ∧
        (SidePanel.expand s none).2 = some t ∧
        SidePanel.currentTitle (SidePanel.expand s none).1 = some t := by
  refine ⟨_, rfl, ?_, ?_, ?_, ?_, ?_, ?_⟩
  · split_ifs <;> omega
  · split_ifs <;> omega
  · intro hlt
    rw [if_pos hlt]
  · intro hge hlt
    rw [if_neg (by omega), if_neg (by omega)]
  · intro hge
    rw [if_neg (by omega), if_pos hge]
  · have hlt : (if s.lastActiveTabIndex < 0 then (0 : ℤ)
        else if (s.titles.length : ℤ) ≤ s.lastActiveTabIndex then (s.titles.length : ℤ) - 1
        else s.lastActiveTabIndex).toNat < s.titles.length := by
      split_ifs <;> omega
    obtain ⟨t, hget, hmem⟩ := SidePanel.get?_exists_of_lt s.titles _ hlt
    have hexp : SidePanel.expand s none = (SidePanel.setCurrentTitle s (some t), some t) := by
      unfold SidePanel.expand
      dsimp only
      rw [if_pos ⟨h1, by rw [h2]; rfl⟩, hget]
    exact ⟨t, hget, by rw [hexp], by
      rw [hexp]
      exact SidePanel.currentTitle_setCurrentTitle_mem hmem⟩

/-- Witness for C5: in a panel with one tab and no current title, `expand`
without an ID clamps the untouched stored index `-1` to `0`, selects tab `7`
and returns it. -/
theorem sidePanel_expand_last_active_witness :
    0 < (SidePanel.addWidget SidePanel.createState 7 none).1.titles.length ∧
    SidePanel.currentTitle (SidePanel.addWidget SidePanel.createState 7 none).1 = none ∧
    ∃ i : ℤ,
      i = (if (SidePanel.addWidget SidePanel.createState 7 none).1.lastActiveTabIndex < 0 then 0
        else if ((SidePanel.addWidget SidePanel.createState 7 none).1.titles.length : ℤ) ≤
            (SidePanel.addWidget SidePanel.createState 7 none).1.lastActiveTabIndex then
          ((SidePanel.addWidget SidePanel.createState 7 none).1.titles.length : ℤ) - 1
        else (SidePanel.addWidget SidePanel.createState 7 none).1.lastActiveTabIndex) ∧
      0 ≤ i ∧ i.toNat < (SidePanel.addWidget SidePanel.createState 7 none).1.titles.length ∧
      ((SidePanel.addWidget SidePanel.createState 7 none).1.lastActiveTabIndex < 0 → i = 0) ∧
      (0 ≤ (SidePanel.addWidget SidePanel.createState 7 none).1.lastActiveTabIndex →
        (SidePanel.addWidget SidePanel.createState 7 none).1.lastActiveTabIndex <
          ((SidePanel.addWidget SidePanel.createState 7 none).1.titles.length : ℤ) →
        i = (SidePanel.addWidget SidePanel.createState 7 none).1.lastActiveTabIndex) ∧
      (((SidePanel.addWidget SidePanel.createState 7 none).1.titles.length : ℤ) ≤
        (SidePanel.addWidget SidePanel.createState 7 none).1.lastActiveTabIndex →
        i = ((SidePanel.addWidget SidePanel.createState 7 none).1.titles.length : ℤ) - 1) ∧
      ∃ t, (SidePanel.addWidget SidePanel.createState 7 none).1.titles.get? i.toNat = some t ∧
        (SidePanel.expand (SidePanel.addWidget SidePanel.createState 7 none).1 none).2 = some t ∧
        SidePanel.currentTitle
          (SidePanel.expand (SidePanel.addWidget SidePanel.createState 7 none).1 none).1 = some t :=
  ⟨by decide, by decide,
    sidePanel_expand_last_active (SidePanel.addWidget SidePanel.createState 7 none).1
      (by decide) (by decide)⟩

/-- C9: whenever `getSourceLineForOffset` computes line `0`,
`PreviewWidget.didScroll` does not fire `onDidScroll` and
`PreviewWidget.didDoubleClick` does not fire `onDidDoubleClick`, because the
truthiness test `if (line)` treats `0` like `undefined`. -/
theorem previewWidget_line_zero_not_fired (elems : List Preview.LineElement) (offset : ℚ)
    (h : Preview.getSourceLineForOffset elems offset =
      Preview.JsOutcome.ret (some (Preview.ExtInt.fin 0))) :
    Preview.didScroll elems offset = Preview.FireOutcome.noFire ∧
    Preview.didDoubleClick elems offset = Preview.FireOutcome.noFire := by
  unfold Preview.didScroll Preview.didDoubleClick
  rw [h]
  exact ⟨rfl, rfl⟩

/-- Witness for C9: a rendered document for which the computed source line at
offset `3` is `0`; neither event fires. -/
theorem previewWidget_line_zero_not_fired_witness :
    Preview.getSourceLineForOffset [⟨0, some 0⟩, ⟨10, none⟩] 3 =
      Preview.JsOutcome.ret (some (Preview.ExtInt.fin 0)) ∧
    Preview.didScroll [⟨0, some 0⟩, ⟨10, none⟩] 3 = Preview.FireOutcome.noFire ∧
    Preview.didDoubleClick [⟨0, some 0⟩, ⟨10, none⟩] 3 = Preview.FireOutcome.noFire :=
  ⟨by decide, (previewWidget_line_zero_not_fired _ _ (by decide)).1,
    (previewWidget_line_zero_not_fired _ _ (by decide)).2⟩

/-- C8: the interpolation divides by the difference of the two line elements'
top offsets without a guard: with two significant elements of equal
`offsetTop` `10` (data-lines `1` and `3`) and offset `10`, the division is
`0 / 0`, and `getSourceLineForOffset` returns `NaN` — neither a number nor
`undefined`. -/
theorem preview_interpolation_nan :
    Preview.getSourceLineForOffset [⟨10, some 1⟩, ⟨10, some 3⟩] 10 =
      Preview.JsOutcome.ret (some Preview.ExtInt.nan) ∧
    (∀ n : ℤ, Preview.getSourceLineForOffset [⟨10, some 1⟩, ⟨10, some 3⟩] 10 ≠
      Preview.JsOutcome.ret (some (Preview.ExtInt.fin n))) ∧
    Preview.getSourceLineForOffset [⟨10, some 1⟩, ⟨10, some 3⟩] 10 ≠
      Preview.JsOutcome.ret none := by
  have h : Preview.getSourceLineForOffset [⟨10, some 1⟩, ⟨10, some 3⟩] 10 =
      Preview.JsOutcome.ret (some Preview.ExtInt.nan) := by
    norm_num [Preview.getSourceLineForOffset, Preview.getLineElementsAtOffset,
      Preview.acceptedElems, Preview.lastTwo, Preview.jsDiv, Preview.jsMulInt,
      Preview.jsFloor, Preview.jsAddInt]
  refine ⟨h, fun n => by rw [h]; simp, by rw [h]; simp⟩

/-- C7 (divergence witness): on a document with exactly one `line` element,
`getSourceLineForOffset` evaluates
`this.getLineNumberFromAttribute(lineElements[1])` before its
`lineElements.length === 1` check; `lineElements[1]` is `undefined`, so the
call throws a `TypeError` instead of returning the element's line number `3`
as the (dead) single-element branch intends. -/
theorem preview_single_element_throws :
    Preview.getSourceLineForOffset [⟨0, some 3⟩] 10 = Preview.JsOutcome.typeError ∧
    Preview.getSourceLineForOffset [⟨0, some 3⟩] 10 ≠
      Preview.JsOutcome.ret (some (Preview.ExtInt.fin 3)) ∧
    (∀ v, Preview.getSourceLineForOffset [⟨0, some 3⟩] 10 ≠ Preview.JsOutcome.ret v) := by
  refine ⟨by decide, by decide, fun v => ?_⟩
  have h : Preview.getSourceLineForOffset [⟨0, some 3⟩] 10 =
      Preview.JsOutcome.typeError := by decide
  rw [h]
  simp

theorem ratFloor_eq_intFloor (q : ℚ) : Rat.floor q = ⌊q⌋ := by
  rw [Rat.floor_def', Rat.floor_def]

/-- C2: when the two significant line elements for the offset satisfy
`y1 < y2`, `y1 ≤ offset < y2` and carry source lines `l1 ≤ l2`,
`getSourceLineForOffset` returns
`l1 + floor((l2 - l1) * (offset - y1) / (y2 - y1))`, which lies in the
interval `[l1, l2]`. -/
theorem preview_interpolation_formula (elems : List Preview.LineElement) (offset : ℚ)
    (e1 e2 : Preview.LineElement) (l1 l2 : ℤ)
    (hget : Preview.getLineElementsAtOffset elems offset = [e1, e2])
    (hl1 : e1.dataLine = some l1) (hl2 : e2.dataLine = some l2)
    (hy : e1.offsetTop < e2.offsetTop)
    (ho1 : e1.offsetTop ≤ offset) (ho2 : offset < e2.offsetTop)
    (hl : l1 ≤ l2) :
    Preview.getSourceLineForOffset elems offset =
      Preview.JsOutcome.ret (some (Preview.ExtInt.fin
        (l1 + Rat.floor (((l2 - l1 : ℤ) : ℚ) *
          ((offset - e1.offsetTop) / (e2.offsetTop - e1.offsetTop)))))) ∧
    l1 ≤ l1 + Rat.floor (((l2 - l1 : ℤ) : ℚ) *
      ((offset - e1.offsetTop) / (e2.offsetTop - e1.offsetTop))) ∧
    l1 + Rat.floor (((l2 - l1 : ℤ) : ℚ) *
      ((offset - e1.offsetTop) / (e2.offsetTop - e1.offsetTop))) ≤ l2 := by
  have hyne : e2.offsetTop - e1.offsetTop ≠ 0 := sub_ne_zero.2 (ne_of_gt hy)
  have heval : Preview.getSourceLineForOffset elems offset =
      Preview.JsOutcome.ret (some (Preview.ExtInt.fin
        (l1 + Rat.floor (((l2 - l1 : ℤ) : ℚ) *
          ((offset - e1.offsetTop) / (e2.offsetTop - e1.offsetTop)))))) := by
    unfold Preview.getSourceLineForOffset
    rw [hget]
    dsimp only
    rw [hl1, hl2]
    dsimp only
    unfold Preview.jsDiv
    rw [if_neg hyne]
    rfl
  refine ⟨heval, ?_, ?_⟩
  · have hq0 : 0 ≤ (offset - e1.offsetTop) / (e2.offsetTop - e1.offsetTop) :=
      div_nonneg (by linarith) (by linarith)
    have hx0 : (0 : ℚ) ≤ ((l2 - l1 : ℤ) : ℚ) *
        ((offset - e1.offsetTop) / (e2.offsetTop - e1.offsetTop)) :=
      mul_nonneg (by exact_mod_cast sub_nonneg.2 hl) hq0
    have := Int.floor_nonneg.2 hx0
    rw [ratFloor_eq_intFloor]
    omega
  · have hq1 : (offset - e1.offsetTop) / (e2.offsetTop - e1.offsetTop) < 1 :=
      (div_lt_one (by linarith)).2 (by linarith)
    have hx : ((l2 - l1 : ℤ) : ℚ) *
        ((offset - e1.offsetTop) / (e2.offsetTop - e1.offsetTop)) ≤ ((l2 - l1 : ℤ) : ℚ) :=
      mul_le_of_le_one_right (by exact_mod_cast sub_nonneg.2 hl) hq1.le
    have hfl : ⌊((l2 - l1 : ℤ) : ℚ) *
        ((offset - e1.offsetTop) / (e2.offsetTop - e1.offsetTop))⌋ ≤ l2 - l1 := by
      have h2 := Int.floor_le_floor hx
      rw [Int.floor_intCast] at h2
      exact h2
    rw [ratFloor_eq_intFloor]
    omega

/-- Witness for C2: elements at offsets `0` and `10` with lines `0` and `2`,
offset `3`; the interpolation returns `0 + floor(2 * 3/10)` which lies in
`[0, 2]`. -/
theorem preview_interpolation_formula_witness :
    Preview.getLineElementsAtOffset [⟨0, some 0⟩, ⟨10, some 2⟩] 3 =
      [⟨0, some 0⟩, ⟨10, some 2⟩] ∧
    ((0 : ℚ) < 10 ∧ (0 : ℚ) ≤ 3 ∧ (3 : ℚ) < 10 ∧ (0 : ℤ) ≤ 2) ∧
    Preview.getSourceLineForOffset [⟨0, some 0⟩, ⟨10, some 2⟩] 3 =
      Preview.JsOutcome.ret (some (Preview.ExtInt.fin
        (0 + Rat.floor (((2 - 0 : ℤ) : ℚ) * (((3 : ℚ) - 0) / ((10 : ℚ) - 0)))))) ∧
    (0 : ℤ) ≤ 0 + Rat.floor (((2 - 0 : ℤ) : ℚ) * (((3 : ℚ) - 0) / ((10 : ℚ) - 0))) ∧
    0 + Rat.floor (((2 - 0 : ℤ) : ℚ) * (((3 : ℚ) - 0) / ((10 : ℚ) - 0))) ≤ 2 :=
  have h := preview_interpolation_formula [⟨0, some 0⟩, ⟨10, some 2⟩] 3
    ⟨0, some 0⟩ ⟨10, some 2⟩ 0 2 (by decide) rfl rfl (by decide) (by decide)
    (by decide) (by decide)
  ⟨by decide, ⟨by decide, by decide, by decide, by decide⟩, h.1, h.2.1, h.2.2⟩

namespace Preview

theorem findLoop_eq (sourceLine : ℤ) :
    ∀ (l : List (Option ℤ)) (i : ℕ) (acc : Option ℕ),
      findLoop sourceLine l i acc =
        if leadCount sourceLine l = 0 then acc
        else some (i + leadCount sourceLine l - 1) := by
  intro l
  induction l with
  | nil => intro i acc; rfl
  | cons a rest ih =>
    intro i acc
    by_cases hc : sourceLine < a.getD 0
    · simp only [findLoop, leadCount, if_pos hc]
      simp
    · simp only [findLoop, leadCount, if_neg hc]
      rw [ih]
      by_cases hk : leadCount sourceLine rest = 0
      · rw [if_pos hk, if_neg (by omega), hk]
        congr 1
      · rw [if_neg hk, if_neg (by omega)]
        congr 1
        omega

theorem leadCount_le (sourceLine : ℤ) :
    ∀ (l : List (Option ℤ)), leadCount sourceLine l ≤ l.length := by
  intro l
  induction l with
  | nil => exact Nat.le_refl 0
  | cons a rest ih =>
    by_cases hc : sourceLine < a.getD 0
    · simp only [leadCount, if_pos hc]
      exact Nat.zero_le _
    · simp only [leadCount, if_neg hc, List.length_cons]
      omega

theorem leadCount_get_le (sourceLine : ℤ) :
    ∀ (l : List (Option ℤ)) (j : ℕ), j < leadCount sourceLine l →
      ∃ a, l.get? j = some a ∧ a.getD 0 ≤ sourceLine := by
  intro l
  induction l with
  | nil => intro j hj; simp [leadCount] at hj
  | cons a rest ih =>
    intro j hj
    by_cases hc : sourceLine < a.getD 0
    · rw [leadCount, if_pos hc] at hj
      omega
    · rw [leadCount, if_neg hc] at hj
      cases j with
      | zero => exact ⟨a, rfl, by omega⟩
      | succ m =>
        obtain ⟨b, hb, hble⟩ := ih m (by omega)
        exact ⟨b, by simpa using hb, hble⟩

theorem leadCount_get_gt (sourceLine : ℤ) :
    ∀ (l : List (Option ℤ)), leadCount sourceLine l < l.length →
      ∃ a, l.get? (leadCount sourceLine l) = some a ∧ sourceLine < a.getD 0 := by
  intro l
  induction l with
  | nil => intro h; simp at h
  | cons a rest ih =>
    intro h
    by_cases hc : sourceLine < a.getD 0
    · rw [leadCount, if_pos hc]
      exact ⟨a, rfl, hc⟩
    · rw [leadCount, if_neg hc]
      rw [leadCount, if_neg hc, List.length_cons] at h
      obtain ⟨b, hb, hgt⟩ := ih (by omega)
      exact ⟨b, by simpa using hb, hgt⟩

theorem mem_of_get? {α : Type} :
    ∀ (l : List α) (n : ℕ) (a : α), l.get? n = some a → a ∈ l := by
  intro l
  induction l with
  | nil => intro n a h; simp at h
  | cons x rest ih =>
    intro n a h
    cases n with
    | zero =>
      simp only [List.get?] at h
      exact (Option.some_inj.1 h) ▸ List.mem_cons_self x rest
    | succ m => exact List.mem_cons_of_mem x (ih m a (by simpa using h))

theorem pairwise_get? {α : Type} {R : α → α → Prop} :
    ∀ {l : List α}, List.Pairwise R l → ∀ {i j : ℕ} (a b : α),
      i < j → l.get? i = some a → l.get? j = some b → R a b := by
  intro l
  induction l with
  | nil => intro _ i j a b _ ha _; simp at ha
  | cons x rest ih =>
    intro h i j a b hij ha hb
    rw [List.pairwise_cons] at h
    cases i with
    | zero =>
      cases j with
      | zero => omega
      | succ m =>
        have hax : a = x := by simpa using ha.symm
        exact hax ▸ h.1 b (mem_of_get? rest m b (by simpa using hb))
    | succ i2 =>
      cases j with
      | zero => omega
      | succ m =>
        refine ih h.2 a b ?_ (by simpa using ha) (by simpa using hb)
        omega

end Preview

/-- C3: for a rendered document whose marked `line` elements all carry
`data-line` attributes with nondecreasing values,
`findElementForSourceLine(sourceLine)` returns `undefined` exactly when there
is no marked element or the first element's value already exceeds
`sourceLine`, and otherwise returns the last marked element whose value is at
most `sourceLine` (every later element's value exceeds `sourceLine`). -/
theorem preview_find_element_for_source_line (attrs : List (Option ℤ)) (sourceLine : ℤ)
    (hsome : ∀ a ∈ attrs, a ≠ none)
    (hsorted : List.Pairwise (fun a b => a.getD 0 ≤ b.getD 0) attrs) :
    (Preview.findElementForSourceLine attrs sourceLine = none ↔
      attrs = [] ∨ ∃ v : ℤ, attrs.head? = some (some v) ∧ sourceLine < v) ∧
    (∀ i, Preview.findElementForSourceLine attrs sourceLine = some i →
      ∃ v : ℤ, attrs.get? i = some (some v) ∧ v ≤ sourceLine ∧
        ∀ j w, i < j → attrs.get? j = some (some w) → sourceLine < w) := by
  have hfe : Preview.findElementForSourceLine attrs sourceLine =
      if Preview.leadCount sourceLine attrs = 0 then none
      else some (0 + Preview.leadCount sourceLine attrs - 1) := by
    unfold Preview.findElementForSourceLine
    exact Preview.findLoop_eq sourceLine attrs 0 none
  constructor
  · rw [hfe]
    constructor
    · intro hnone
      have hk : Preview.leadCount sourceLine attrs = 0 := by
        by_contra hk
        rw [if_neg hk] at hnone
        exact Option.noConfusion hnone
      cases attrs with
      | nil => exact Or.inl rfl
      | cons a rest =>
        refine Or.inr ?_
        have hc : sourceLine < a.getD 0 := by
          by_contra hc
          rw [Preview.leadCount, if_neg hc] at hk
          omega
        obtain ⟨v, hv⟩ : ∃ v : ℤ, a = some v := by
          cases a with
          | none => exact absurd rfl (hsome none (List.mem_cons_self _ _))
          | some v => exact ⟨v, rfl⟩
        exact ⟨v, by rw [hv]; rfl, by rw [hv] at hc; simpa using hc⟩
    · intro h
      cases h with
      | inl h0 =>
        subst h0
        rfl
      | inr h1 =>
        obtain ⟨v, hv, hlt⟩ := h1
        cases attrs with
        | nil => simp at hv
        | cons a rest =>
          have ha : a = some v := by simpa using hv
          rw [if_pos (by rw [Preview.leadCount, if_pos (by rw [ha]; simpa using hlt)])]
  · intro i hi
    rw [hfe] at hi
    have hk : Preview.leadCount sourceLine attrs ≠ 0 := by
      by_contra hk
      rw [if_pos hk] at hi
      exact Option.noConfusion hi
    rw [if_neg hk] at hi
    have hik : i = Preview.leadCount sourceLine attrs - 1 := by
      have := Option.some_inj.1 hi
      omega
    obtain ⟨a, ha, hale⟩ := Preview.leadCount_get_le sourceLine attrs i (by omega)
    obtain ⟨v, hv⟩ : ∃ v : ℤ, a = some v := by
      cases a with
      | none => exact absurd rfl (hsome none (Preview.mem_of_get? attrs i none ha))
      | some v => exact ⟨v, rfl⟩
    subst hv
    refine ⟨v, ha, by simpa using hale, ?_⟩
    intro j w hij hj
    have hjlen : j < attrs.length := by
      by_contra hjl
      rw [List.get?_eq_none.2 (by omega)] at hj
      exact Option.noConfusion hj
    have hklen : Preview.leadCount sourceLine attrs < attrs.length := by omega
    obtain ⟨b, hb, hbgt⟩ := Preview.leadCount_get_gt sourceLine attrs hklen
    by_cases hjk : j = Preview.leadCount sourceLine attrs
    · rw [hjk, hb] at hj
      have : b = some w := Option.some_inj.1 hj
      rw [this] at hbgt
      simpa using hbgt
    · have hle : b.getD 0 ≤ (Option.some w).getD 0 :=
        Preview.pairwise_get? hsorted b (some w) (by omega) hb hj
      simp only [Option.getD_some] at hle
      omega

/-- Witness for C3: elements with lines `0, 2, 5` and source line `3`; the
match is the element at index `1` (line `2`), and the result is not
`undefined`. -/
theorem preview_find_element_for_source_line_witness :
    (∀ a ∈ ([some 0, some 2, some 5] : List (Option ℤ)), a ≠ none) ∧
    List.Pairwise (fun a b : Option ℤ => a.getD 0 ≤ b.getD 0)
      ([some 0, some 2, some 5] : List (Option ℤ)) ∧
    (Preview.findElementForSourceLine [some 0, some 2, some 5] 3 = none ↔
      ([some 0, some 2, some 5] : List (Option ℤ)) = [] ∨
        ∃ v : ℤ, ([some 0, some 2, some 5] : List (Option ℤ)).head? = some (some v) ∧ 3 < v) ∧
    (∀ i, Preview.findElementForSourceLine [some 0, some 2, some 5] 3 = some i →
      ∃ v : ℤ, ([some 0, some 2, some 5] : List (Option ℤ)).get? i = some (some v) ∧ v ≤ 3 ∧
        ∀ j w, i < j →
          ([some 0, some 2, some 5] : List (Option ℤ)).get? j = some (some w) → 3 < w) :=
  ⟨by decide, by decide,
    (preview_find_element_for_source_line [some 0, some 2, some 5] 3
      (by decide) (by decide)).1,
    (preview_find_element_for_source_line [some 0, some 2, some 5] 3
      (by decide) (by decide)).2⟩

namespace SidePanel

theorem downLoop_no (cond : ℕ → Bool) :
    ∀ (m acc : ℕ), (∀ j, j < m → cond j = false) → downLoop cond m acc = acc := by
  intro m
  induction m with
  | zero => intro acc _; rfl
  | succ k ih =>
    intro acc h
    unfold downLoop
    rw [if_neg (by simp [h k (Nat.lt_succ_self k)])]
    exact ih acc fun j hj => h j (by omega)

theorem downLoop_found (cond : ℕ → Bool) :
    ∀ (m acc j0 : ℕ), j0 < m → cond j0 = true → (∀ j, j < j0 → cond j = false) →
      downLoop cond m acc = j0 := by
  intro m
  induction m with
  | zero => intro acc j0 h; omega
  | succ k ih =>
    intro acc j0 hlt hc hbelow
    unfold downLoop
    by_cases hjk : j0 = k
    · subst hjk
      rw [if_pos hc]
      exact downLoop_no cond j0 j0 hbelow
    · cases hck : cond k with
      | false => exact ih acc j0 (by omega) hc hbelow
      | true => exact ih k j0 (by omega) hc hbelow

theorem rankGtAt_true_iff (titles : List ℕ) (ranks : ℕ → Option ℤ) (rk : ℤ) (j : ℕ) :
    rankGtAt titles ranks rk j = true ↔
      ∃ x rx, titles.get? j = some x ∧ ranks x = some rx ∧ rk < rx := by
  unfold rankGtAt
  cases hg : titles.get? j with
  | none => simp
  | some x =>
    dsimp only
    cases hr : ranks x with
    | none => simp [hr]
    | some rx =>
      dsimp only
      constructor
      · intro h
        exact ⟨x, rx, rfl, hr, of_decide_eq_true h⟩
      · rintro ⟨x1, rx1, hx1, hr1, hlt1⟩
        have hxx : x1 = x := Option.some_inj.1 hx1.symm
        subst hxx
        rw [hr] at hr1
        have hrr : rx1 = rx := Option.some_inj.1 hr1.symm
        subst hrr
        exact decide_eq_true hlt1

theorem get?_lt_length {α : Type} {l : List α} {j : ℕ} {x : α}
    (h : l.get? j = some x) : j < l.length := by
  by_contra hc
  rw [List.get?_eq_none.2 (by omega)] at h
  exact Option.noConfusion h

theorem mem_take_get? {α : Type} :
    ∀ (l : List α) (i : ℕ) (x : α), x ∈ l.take i → ∃ j, j < i ∧ l.get? j = some x := by
  intro l
  induction l with
  | nil => intro i x hx; simp at hx
  | cons a rest ih =>
    intro i x hx
    cases i with
    | zero => simp at hx
    | succ m =>
      rw [List.take_succ_cons] at hx
      cases List.mem_cons.1 hx with
      | inl he => exact ⟨0, by omega, by rw [he]; rfl⟩
      | inr hm =>
        obtain ⟨j, hj, hget⟩ := ih m x hm
        exact ⟨j + 1, by omega, by simpa using hget⟩

theorem mem_drop_get? {α : Type} :
    ∀ (l : List α) (i : ℕ) (x : α), x ∈ l.drop i → ∃ j, i ≤ j ∧ l.get? j = some x := by
  intro l
  induction l with
  | nil => intro i x hx; simp at hx
  | cons a rest ih =>
    intro i x hx
    cases i with
    | zero =>
      obtain ⟨j, hget⟩ : ∃ j, (a :: rest).get? j = some x := by
        cases List.mem_cons.1 hx with
        | inl he => exact ⟨0, by rw [he]; rfl⟩
        | inr hm =>
          obtain ⟨j, _, hget⟩ := ih 0 x (by simpa using hm)
          exact ⟨j + 1, by simpa using hget⟩
      exact ⟨j, Nat.zero_le j, hget⟩
    | succ m =>
      rw [List.drop_succ_cons] at hx
      obtain ⟨j, hj, hget⟩ := ih m x hx
      exact ⟨j + 1, by omega, by simpa using hget⟩

theorem mem_insertAt {α : Type} (l : List α) (i : ℕ) (a x : α) :
    x ∈ insertAt l i a ↔ x ∈ l ∨ x = a := by
  unfold insertAt
  constructor
  · intro hx
    cases List.mem_append.1 hx with
    | inl ht => exact Or.inl (List.take_subset i l ht)
    | inr hd =>
      cases List.mem_cons.1 hd with
      | inl he => exact Or.inr he
      | inr hm => exact Or.inl (List.drop_subset i l hm)
  · intro hx
    cases hx with
    | inl hm =>
      rw [← List.take_append_drop i l] at hm
      cases List.mem_append.1 hm with
      | inl ht => exact List.mem_append.2 (Or.inl ht)
      | inr hd => exact List.mem_append.2 (Or.inr (List.mem_cons_of_mem a hd))
    | inr he => exact List.mem_append.2 (Or.inr (he ▸ List.mem_cons_self a _))

theorem pairwise_imp_mem {α : Type} {R S : α → α → Prop} :
    ∀ {l : List α}, (∀ a b, a ∈ l → b ∈ l → R a b → S a b) →
      List.Pairwise R l → List.Pairwise S l := by
  intro l
  induction l with
  | nil => intro _ _; exact List.Pairwise.nil
  | cons x rest ih =>
    intro himp hp
    rw [List.pairwise_cons] at hp ⊢
    refine ⟨fun y hy => himp x y (List.mem_cons_self _ _) (List.mem_cons_of_mem _ hy)
      (hp.1 y hy), ?_⟩
    exact ih (fun a b ha hb => himp a b (List.mem_cons_of_mem _ ha)
      (List.mem_cons_of_mem _ hb)) hp.2

theorem pairwise_insertAt {α : Type} {R : α → α → Prop} (l : List α) (i : ℕ) (a : α)
    (hl : List.Pairwise R l) (h1 : ∀ x ∈ l.take i, R x a) (h2 : ∀ x ∈ l.drop i, R a x) :
    List.Pairwise R (insertAt l i a) := by
  unfold insertAt
  have hld : List.Pairwise R (l.take i ++ l.drop i) := by
    rw [List.take_append_drop]
    exact hl
  rw [List.pairwise_append] at hld
  obtain ⟨hpt, hpd, hcross⟩ := hld
  rw [List.pairwise_append]
  refine ⟨hpt, ?_, ?_⟩
  · rw [List.pairwise_cons]
    exact ⟨h2, hpd⟩
  · intro x hx y hy
    cases List.mem_cons.1 hy with
    | inl he => exact he ▸ h1 x hx
    | inr hm => exact hcross x hx y hm

theorem insertAt_length {α : Type} (l : List α) (a : α) :
    insertAt l l.length a = l ++ [a] := by
  unfold insertAt
  rw [List.take_length, List.drop_length]

end SidePanel

namespace SidePanel

theorem addWidget_fresh_spec (s : SPState) (w : ℕ) (r : ℤ) (hr : r ≠ 0)
    (hd : w ∉ s.dock) :
    ∃ idx, idx ≤ s.titles.length ∧
      (addWidget s w (some r)).1.titles = insertAt s.titles idx w ∧
      (addWidget s w (some r)).1.dock = s.dock ++ [w] ∧
      (addWidget s w (some r)).1.ranks =
        (fun x => if x = w then some r else s.ranks x) ∧
      (∀ j, j < idx →
        rankGtAt s.titles (fun x => if x = w then some r else s.ranks x) r j = false) ∧
      (idx < s.titles.length →
        rankGtAt s.titles (fun x => if x = w then some r else s.ranks x) r idx = true) := by
  have hstep : (addWidget s w (some r)).1 =
      refreshVisibility (insertTab
        { s with ranks := fun x => if x = w then some r else s.ranks x,
                 dock := s.dock ++ [w] }
        (downLoop (rankGtAt s.titles (fun x => if x = w then some r else s.ranks x) r)
          s.titles.length s.titles.length) w) := by
    unfold addWidget
    dsimp only
    rw [if_pos (show rankTruthy (some r) = true from decide_eq_true hr)]
    unfold dockAddWidget
    rw [if_neg hd]
    unfold onWidgetAdded
    dsimp only
    rw [if_pos rfl]
  have hchar : downLoop (rankGtAt s.titles
        (fun x => if x = w then some r else s.ranks x) r)
        s.titles.length s.titles.length ≤ s.titles.length ∧
      (∀ j, j < downLoop (rankGtAt s.titles
        (fun x => if x = w then some r else s.ranks x) r)
        s.titles.length s.titles.length →
        rankGtAt s.titles (fun x => if x = w then some r else s.ranks x) r j = false) ∧
      (downLoop (rankGtAt s.titles (fun x => if x = w then some r else s.ranks x) r)
        s.titles.length s.titles.length < s.titles.length →
        rankGtAt s.titles (fun x => if x = w then some r else s.ranks x) r
          (downLoop (rankGtAt s.titles (fun x => if x = w then some r else s.ranks x) r)
            s.titles.length s.titles.length) = true) := by
    by_cases hex : ∃ j, j < s.titles.length ∧
        rankGtAt s.titles (fun x => if x = w then some r else s.ranks x) r j = true
    · have hspec := Nat.find_spec hex
      have hbelow : ∀ j, j < Nat.find hex →
          rankGtAt s.titles (fun x => if x = w then some r else s.ranks x) r j = false := by
        intro j hj
        have hmin := Nat.find_min hex hj
        have hjlen : j < s.titles.length := by omega
        cases hc : rankGtAt s.titles (fun x => if x = w then some r else s.ranks x) r j with
        | false => rfl
        | true => exact absurd ⟨hjlen, hc⟩ hmin
      have hdl := downLoop_found _ s.titles.length s.titles.length (Nat.find hex)
        hspec.1 hspec.2 hbelow
      rw [hdl]
      exact ⟨Nat.le_of_lt hspec.1, hbelow, fun _ => hspec.2⟩
    · push_neg at hex
      have hall : ∀ j, j < s.titles.length →
          rankGtAt s.titles (fun x => if x = w then some r else s.ranks x) r j = false := by
        intro j hj
        cases hc : rankGtAt s.titles (fun x => if x = w then some r else s.ranks x) r j with
        | false => rfl
        | true => exact absurd hc (hex j hj)
      have hdl := downLoop_no _ s.titles.length s.titles.length hall
      rw [hdl]
      exact ⟨Nat.le_refl _, fun j hj => hall j hj, fun h => absurd h (Nat.lt_irrefl _)⟩
  refine ⟨downLoop (rankGtAt s.titles (fun x => if x = w then some r else s.ranks x) r)
      s.titles.length s.titles.length, hchar.1, ?_, ?_, ?_, hchar.2.1, hchar.2.2⟩
  · rw [hstep]
    show insertAt s.titles (min (downLoop (rankGtAt s.titles
      (fun x => if x = w then some r else s.ranks x) r)
      s.titles.length s.titles.length) s.titles.length) w = _
    rw [Nat.min_eq_left hchar.1]
  · rw [hstep]
    rfl
  · rw [hstep]
    rfl

end SidePanel

namespace SidePanel

theorem addWidget_fresh_preserves (s : SPState) (w : ℕ) (r : ℤ) (hr : r ≠ 0)
    (hd : w ∉ s.dock) (hsync : SyncedInv s) (hsorted : RanksSortedDefined s) :
    SyncedInv (addWidget s w (some r)).1 ∧
    RanksSortedDefined (addWidget s w (some r)).1 ∧
    (addWidget s w (some r)).1.dock = s.dock ++ [w] := by
  have hwt : w ∉ s.titles := fun h => hd (hsync.1 w h)
  obtain ⟨idx, hle, htit, hdock, hranks, hbelow, hat⟩ :=
    addWidget_fresh_spec s w r hr hd
  have hmemt : ∀ x, x ∈ (addWidget s w (some r)).1.titles ↔ x ∈ s.titles ∨ x = w := by
    intro x
    rw [htit]
    exact mem_insertAt s.titles idx w x
  have hranks_at : ∀ x, x ≠ w →
      (addWidget s w (some r)).1.ranks x = s.ranks x := by
    intro x hx
    rw [hranks]
    exact if_neg hx
  have hranks_w : (addWidget s w (some r)).1.ranks w = some r := by
    rw [hranks]
    exact if_pos rfl
  have hne_of_mem : ∀ x, x ∈ s.titles → x ≠ w := fun x hx he => hwt (he ▸ hx)
  refine ⟨⟨?_, ?_⟩, ⟨?_, ?_⟩, hdock⟩
  · intro x hx
    rw [hdock]
    cases (hmemt x).1 hx with
    | inl hm => exact List.mem_append.2 (Or.inl (hsync.1 x hm))
    | inr he => exact List.mem_append.2 (Or.inr (he ▸ List.mem_cons_self w []))
  · intro x hx
    rw [hdock] at hx
    rw [hmemt]
    cases List.mem_append.1 hx with
    | inl hm => exact Or.inl (hsync.2 x hm)
    | inr he =>
      cases List.mem_cons.1 he with
      | inl h1 => exact Or.inr h1
      | inr h2 => exact absurd h2 (List.not_mem_nil x)
  · intro x hx
    cases (hmemt x).1 hx with
    | inl hm =>
      obtain ⟨rx, hrx⟩ := hsorted.1 x hm
      exact ⟨rx, by rw [hranks_at x (hne_of_mem x hm)]; exact hrx⟩
    | inr he => exact ⟨r, he ▸ hranks_w⟩
  · rw [htit]
    apply pairwise_insertAt
    · refine pairwise_imp_mem (fun a b ha hb hab => ?_) hsorted.2
      intro ra rb hra hrb
      rw [hranks_at a (hne_of_mem a ha)] at hra
      rw [hranks_at b (hne_of_mem b hb)] at hrb
      exact hab ra rb hra hrb
    · intro x hx ra rb hra hrb
      have hxmem : x ∈ s.titles := List.take_subset idx s.titles hx
      have hxw : x ≠ w := hne_of_mem x hxmem
      rw [hranks_at x hxw] at hra
      rw [hranks_w] at hrb
      have hrb2 : rb = r := Option.some_inj.1 hrb.symm
      obtain ⟨j, hj, hget⟩ := mem_take_get? s.titles idx x hx
      have hcond := hbelow j hj
      by_contra hcon
      push_neg at hcon
      have hcon2 : r < ra := by omega
      have : rankGtAt s.titles (fun y => if y = w then some r else s.ranks y) r j = true := by
        rw [rankGtAt_true_iff]
        exact ⟨x, ra, hget, by rw [if_neg hxw]; exact hra, hcon2⟩
      rw [this] at hcond
      exact Bool.noConfusion hcond
    · intro x hx ra rb hra hrb
      have hxmem : x ∈ s.titles := List.drop_subset idx s.titles hx
      have hxw : x ≠ w := hne_of_mem x hxmem
      rw [hranks_w] at hra
      have hra2 : ra = r := Option.some_inj.1 hra.symm
      subst hra2
      rw [hranks_at x hxw] at hrb
      obtain ⟨j, hji, hget⟩ := mem_drop_get? s.titles idx x hx
      have hjlen : j < s.titles.length := get?_lt_length hget
      have hidxlen : idx < s.titles.length := by omega
      have hcondat := hat hidxlen
      rw [rankGtAt_true_iff] at hcondat
      obtain ⟨x0, rx0, hget0, hrank0, hgt0⟩ := hcondat
      have hx0mem : x0 ∈ s.titles := Preview.mem_of_get? s.titles idx x0 hget0
      have hx0w : x0 ≠ w := hne_of_mem x0 hx0mem
      rw [if_neg hx0w] at hrank0
      by_cases hji2 : j = idx
      · rw [hji2, hget0] at hget
        have hxx0 : x0 = x := Option.some_inj.1 hget
        rw [hxx0] at hrank0
        rw [hrank0] at hrb
        have : rx0 = rb := Option.some_inj.1 hrb
        omega
      · have hmono := Preview.pairwise_get? hsorted.2 x0 x
          (by omega : idx < j) hget0 hget
        have := hmono rx0 rb hrank0 hrb
        omega

theorem addAll_invariant :
    ∀ (ws : List (ℕ × ℤ)) (s : SPState),
      SyncedInv s → RanksSortedDefined s →
      (∀ p ∈ ws, p.2 ≠ 0) → (ws.map Prod.fst).Nodup →
      (∀ p ∈ ws, p.1 ∉ s.dock) →
      SyncedInv (addAll s ws) ∧ RanksSortedDefined (addAll s ws) ∧
        (∀ x, x ∈ (addAll s ws).dock → x ∈ s.dock ∨ ∃ p ∈ ws, p.1 = x) := by
  intro ws
  induction ws with
  | nil =>
    intro s hsync hsorted _ _ _
    exact ⟨hsync, hsorted, fun x hx => Or.inl hx⟩
  | cons p rest ih =>
    intro s hsync hsorted hnz hnodup hfresh
    have hd : p.1 ∉ s.dock := hfresh p (List.mem_cons_self p rest)
    have hr : p.2 ≠ 0 := hnz p (List.mem_cons_self p rest)
    obtain ⟨hsync2, hsorted2, hdock2⟩ :=
      addWidget_fresh_preserves s p.1 p.2 hr hd hsync hsorted
    have hstep : addAll s (p :: rest) = addAll (addWidget s p.1 (some p.2)).1 rest := rfl
    rw [hstep]
    have hnodup2 : (rest.map Prod.fst).Nodup := by
      rw [List.map_cons, List.nodup_cons] at hnodup
      exact hnodup.2
    have hhead : p.1 ∉ rest.map Prod.fst := by
      rw [List.map_cons, List.nodup_cons] at hnodup
      exact hnodup.1
    have hfresh2 : ∀ q ∈ rest, q.1 ∉ (addWidget s p.1 (some p.2)).1.dock := by
      intro q hq
      rw [hdock2]
      intro hmem
      cases List.mem_append.1 hmem with
      | inl hm => exact hfresh q (List.mem_cons_of_mem p hq) hm
      | inr he =>
        cases List.mem_cons.1 he with
        | inl h1 => exact hhead (h1 ▸ List.mem_map_of_mem Prod.fst hq)
        | inr h2 => exact absurd h2 (List.not_mem_nil q.1)
    obtain ⟨hs3, hr3, hd3⟩ := ih (addWidget s p.1 (some p.2)).1 hsync2 hsorted2
      (fun q hq => hnz q (List.mem_cons_of_mem p hq)) hnodup2 hfresh2
    refine ⟨hs3, hr3, fun x hx => ?_⟩
    cases hd3 x hx with
    | inl hm =>
      rw [hdock2] at hm
      cases List.mem_append.1 hm with
      | inl h1 => exact Or.inl h1
      | inr h2 =>
        cases List.mem_cons.1 h2 with
        | inl h3 => exact Or.inr ⟨p, List.mem_cons_self p rest, h3.symm⟩
        | inr h4 => exact absurd h4 (List.not_mem_nil x)
    | inr hex =>
      obtain ⟨q, hq, hqx⟩ := hex
      exact Or.inr ⟨q, List.mem_cons_of_mem p hq, hqx⟩

end SidePanel

/-- C1 counterexample: widget 20 is added via `addWidget` with rank `0` while
the only existing tab (widget 10) has rank `5`. The claim requires insertion
at index 0 (tab order `[20, 10]`), but `if (options.rank)` is falsy for `0`,
so the rank property is never set and the tab is appended, giving `[10, 20]`. -/
theorem sidePanel_rank_order_counterexample :
    (SidePanel.addAll SidePanel.createState [(10, 5), (20, 0)]).titles = [10, 20] ∧
    (SidePanel.addAll SidePanel.createState [(10, 5), (20, 0)]).ranks 20 = none ∧
    (SidePanel.addAll SidePanel.createState [(10, 5), (20, 0)]).ranks 10 = some 5 ∧
    (SidePanel.addAll SidePanel.createState [(10, 5), (20, 0)]).titles ≠ [20, 10] := by
  refine ⟨by decide, by decide, by decide, by decide⟩

/-- C1 (amended): when a widget is added via `SidePanelHandler.addWidget`
with a nonzero rank, its tab is inserted at the smallest index whose existing
tab has a defined rank strictly greater than the new rank, and appended at
the end if no such tab exists; for every sequence of distinct widgets each
added with a nonzero rank, the resulting tab order is nondecreasing by rank
regardless of insertion order; widgets added without a rank — or with rank
`0`, which the truthy test `if (options.rank)` drops — are appended at the
end. -/
theorem sidePanel_rank_order :
    (∀ (s : SidePanel.SPState) (w : ℕ) (r : ℤ), r ≠ 0 → w ∉ s.dock → w ∉ s.titles →
      ∃ idx, idx ≤ s.titles.length ∧
        (SidePanel.addWidget s w (some r)).1.titles = SidePanel.insertAt s.titles idx w ∧
        (∀ j, j < idx → ∀ x rx, s.titles.get? j = some x → s.ranks x = some rx → rx ≤ r) ∧
        (idx < s.titles.length →
          ∃ x rx, s.titles.get? idx = some x ∧ s.ranks x = some rx ∧ r < rx)) ∧
    (∀ ws : List (ℕ × ℤ), (ws.map Prod.fst).Nodup → (∀ p ∈ ws, p.2 ≠ 0) →
      SidePanel.RanksSortedDefined (SidePanel.addAll SidePanel.createState ws)) ∧
    (∀ (s : SidePanel.SPState) (w : ℕ), s.ranks w = none → w ∉ s.dock →
      (SidePanel.addWidget s w none).1.titles = s.titles ++ [w] ∧
      (SidePanel.addWidget s w (some 0)).1.titles = s.titles ++ [w]) := by
  refine ⟨?_, ?_, ?_⟩
  · intro s w r hr hd hwt
    obtain ⟨idx, hle, htit, _, _, hbelow, hat⟩ :=
      SidePanel.addWidget_fresh_spec s w r hr hd
    refine ⟨idx, hle, htit, ?_, ?_⟩
    · intro j hj x rx hget hrank
      have hcond := hbelow j hj
      by_contra hcon
      push_neg at hcon
      have hxw : x ≠ w := fun he => hwt (he ▸ Preview.mem_of_get? s.titles j x hget)
      have : SidePanel.rankGtAt s.titles
          (fun y => if y = w then some r else s.ranks y) r j = true := by
        rw [SidePanel.rankGtAt_true_iff]
        exact ⟨x, rx, hget, by rw [if_neg hxw]; exact hrank, hcon⟩
      rw [this] at hcond
      exact Bool.noConfusion hcond
    · intro hlt
      have := hat hlt
      rw [SidePanel.rankGtAt_true_iff] at this
      obtain ⟨x, rx, hget, hrank, hgt⟩ := this
      have hxw : x ≠ w := fun he => hwt (he ▸ Preview.mem_of_get? s.titles idx x hget)
      rw [if_neg hxw] at hrank
      exact ⟨x, rx, hget, hrank, hgt⟩
  · intro ws hnodup hnz
    have hsync : SidePanel.SyncedInv SidePanel.createState :=
      ⟨fun x hx => absurd hx (List.not_mem_nil x), fun x hx => absurd hx (List.not_mem_nil x)⟩
    have hsorted : SidePanel.RanksSortedDefined SidePanel.createState :=
      ⟨fun x hx => absurd hx (List.not_mem_nil x), List.Pairwise.nil⟩
    have hfresh : ∀ p ∈ ws, p.1 ∉ SidePanel.createState.dock :=
      fun p _ => List.not_mem_nil p.1
    exact (SidePanel.addAll_invariant ws SidePanel.createState hsync hsorted
      hnz hnodup hfresh).2.1
  · intro s w hnone hd
    constructor
    · have hstep : (SidePanel.addWidget s w none).1 =
          SidePanel.refreshVisibility (SidePanel.insertTab
            { s with dock := s.dock ++ [w] } s.titles.length w) := by
        unfold SidePanel.addWidget
        dsimp only
        rw [if_neg (by decide)]
        unfold SidePanel.dockAddWidget
        rw [if_neg hd]
        unfold SidePanel.onWidgetAdded
        dsimp only
        rw [show ({ s with dock := s.dock ++ [w] } : SidePanel.SPState).ranks w = none
          from hnone]
      rw [hstep]
      show SidePanel.insertAt s.titles (min s.titles.length s.titles.length) w = _
      rw [Nat.min_self]
      exact SidePanel.insertAt_length s.titles w
    · have hstep : (SidePanel.addWidget s w (some 0)).1 =
          SidePanel.refreshVisibility (SidePanel.insertTab
            { s with dock := s.dock ++ [w] } s.titles.length w) := by
        unfold SidePanel.addWidget
        dsimp only
        rw [if_neg (by decide)]
        unfold SidePanel.dockAddWidget
        rw [if_neg hd]
        unfold SidePanel.onWidgetAdded
        dsimp only
        rw [show ({ s with dock := s.dock ++ [w] } : SidePanel.SPState).ranks w = none
          from hnone]
      rw [hstep]
      show SidePanel.insertAt s.titles (min s.titles.length s.titles.length) w = _
      rw [Nat.min_self]
      exact SidePanel.insertAt_length s.titles w

/-- Witness for C1 (amended): widget 20 with rank 3 inserted into a panel
holding widget 10 with rank 5; three distinct ranked widgets give a sorted
bar; widget 20 without a rank (or with rank 0) is appended. -/
theorem sidePanel_rank_order_witness :
    ((3 : ℤ) ≠ 0 ∧
      20 ∉ (SidePanel.addWidget SidePanel.createState 10 (some 5)).1.dock ∧
      20 ∉ (SidePanel.addWidget SidePanel.createState 10 (some 5)).1.titles ∧
      ∃ idx, idx ≤ (SidePanel.addWidget SidePanel.createState 10 (some 5)).1.titles.length ∧
        (SidePanel.addWidget (SidePanel.addWidget SidePanel.createState 10 (some 5)).1
            20 (some 3)).1.titles =
          SidePanel.insertAt
            (SidePanel.addWidget SidePanel.createState 10 (some 5)).1.titles idx 20 ∧
        (∀ j, j < idx → ∀ x rx,
          (SidePanel.addWidget SidePanel.createState 10 (some 5)).1.titles.get? j = some x →
          (SidePanel.addWidget SidePanel.createState 10 (some 5)).1.ranks x = some rx →
          rx ≤ 3) ∧
        (idx < (SidePanel.addWidget SidePanel.createState 10 (some 5)).1.titles.length →
          ∃ x rx,
            (SidePanel.addWidget SidePanel.createState 10 (some 5)).1.titles.get? idx =
              some x ∧
            (SidePanel.addWidget SidePanel.createState 10 (some 5)).1.ranks x = some rx ∧
            3 < rx)) ∧
    ((([(1, 50), (2, 10), (3, 30)] : List (ℕ × ℤ)).map Prod.fst).Nodup ∧
      (∀ p ∈ ([(1, 50), (2, 10), (3, 30)] : List (ℕ × ℤ)), p.2 ≠ 0) ∧
      SidePanel.RanksSortedDefined
        (SidePanel.addAll SidePanel.createState [(1, 50), (2, 10), (3, 30)])) ∧
    ((SidePanel.addWidget SidePanel.createState 10 (some 5)).1.ranks 20 = none ∧
      20 ∉ (SidePanel.addWidget SidePanel.createState 10 (some 5)).1.dock ∧
      (SidePanel.addWidget (SidePanel.addWidget SidePanel.createState 10 (some 5)).1
          20 none).1.titles =
        (SidePanel.addWidget SidePanel.createState 10 (some 5)).1.titles ++ [20] ∧
      (SidePanel.addWidget (SidePanel.addWidget SidePanel.createState 10 (some 5)).1
          20 (some 0)).1.titles =
        (SidePanel.addWidget SidePanel.createState 10 (some 5)).1.titles ++ [20]) :=
  ⟨⟨by decide, by decide, by decide,
      sidePanel_rank_order.1 (SidePanel.addWidget SidePanel.createState 10 (some 5)).1
        20 3 (by decide) (by decide) (by decide)⟩,
    ⟨by decide, by decide,
      sidePanel_rank_order.2.1 [(1, 50), (2, 10), (3, 30)] (by decide) (by decide)⟩,
    ⟨by decide, by decide,
      (sidePanel_rank_order.2.2 (SidePanel.addWidget SidePanel.createState 10 (some 5)).1
        20 (by decide) (by decide)).1,
      (sidePanel_rank_order.2.2 (SidePanel.addWidget SidePanel.createState 10 (some 5)).1
        20 (by decide) (by decide)).2⟩⟩
